import Mathlib

/-!
# PiFace digital I/O (`pfio.c`): pin addressing and register transactions

A shallow embedding of `src/c/src/piface/pfio.c`.

## Machine integers

A C `char` is held as its 8-bit pattern, a natural number below 256, and an
`int` as its 32-bit twos-complement pattern, a natural number below `2^32`.
Whether plain `char` is signed is implementation-defined in C (signed with GCC
on x86, unsigned with GCC on ARM Linux); every function whose result can depend
on it takes the flag `signedChar`.

## Constants

The header `pfio.h` is not part of the sources, so the opcodes and register
addresses it defines are the fields of `Consts`.
-/

namespace Pfio

/-! ## Integer model -/

/-- Integer promotion of a `char` pattern to an `int` pattern: sign extension
when plain `char` is signed and bit 7 is set, zero extension otherwise. -/
def promote (signedChar : Bool) (ch : Nat) : Nat :=
  if signedChar && decide (128 ≤ ch % 256) then ch % 256 + 0xFFFFFF00 else ch % 256

/-- Conversion of an `int` pattern to `char`: the low 8 bits. -/
def toChar (i : Nat) : Nat := i % 256

/-- Bitwise complement `~i` of an `int` pattern. -/
def intNot (i : Nat) : Nat := 0xFFFFFFFF - i % 2 ^ 32

/-- The value of an `int` pattern as a mathematical integer (twos-complement). -/
def intVal (i : Nat) : Int :=
  if i % 2 ^ 32 < 2 ^ 31 then ((i % 2 ^ 32 : Nat) : Int) else ((i % 2 ^ 32 : Nat) : Int) - 2 ^ 32

/-- Right shift `i >> 1` of an `int` pattern (arithmetic: the sign bit is kept). -/
def intShr1 (i : Nat) : Nat :=
  if i % 2 ^ 32 < 2 ^ 31 then (i % 2 ^ 32) >>> 1 else ((i % 2 ^ 32) >>> 1) ||| 0x80000000

/-- Left shift `1 << n` as an `int` pattern, for a shift count `0 ≤ n < 32`
(other counts are undefined in C and no caller in the file uses them). -/
def intShl1 (n : Nat) : Nat := (1 <<< n) % 2 ^ 32

/-- The value of a `char` pattern as a mathematical integer. -/
def charValue (signedChar : Bool) (ch : Nat) : Int :=
  if signedChar && decide (128 ≤ ch % 256) then (ch % 256 : Nat) - 256 else (ch % 256 : Nat)

/-! ## Pin addressing -/

/-- Source `pfio_get_pin_bit_mask`: `return 1 << pin_number;` converted to `char`. -/
def pfio_get_pin_bit_mask (pin_number : Nat) : Nat :=
  toChar (intShl1 pin_number)

/-- The `while` loop of `pfio_get_pin_number`, one iteration per unit of fuel.
`none` means the fuel ran out before the loop ended. -/
def pinNumberLoop (signedChar : Bool) : Nat → Nat → Nat → Option Nat
  | 0, _, _ => none
  | fuel + 1, bit_pattern, pin_number =>
    if promote signedChar bit_pattern &&& 1 = 0 then
      let bit_pattern1 := toChar (intShr1 (promote signedChar bit_pattern))
      let pin_number1 := toChar (pin_number + 1)
      if 7 < intVal (promote signedChar pin_number1) then
        some 0
      else
        pinNumberLoop signedChar fuel bit_pattern1 pin_number1
    else
      some pin_number

/-- Source `pfio_get_pin_number`: `pin_number = 0`, then the loop. -/
def pfio_get_pin_number (signedChar : Bool) (fuel : Nat) (bit_pattern : Nat) : Option Nat :=
  pinNumberLoop signedChar fuel bit_pattern 0

/-! ## Constants of the missing header -/

/-- The constants that `pfio.c` takes from `pfio.h`, which is not among the
sources: the two opcodes, the five configuration registers, the two port
addresses and the path buffer size. -/
structure Consts where
  SPI_WRITE_CMD : Nat
  SPI_READ_CMD : Nat
  IOCON : Nat
  GPIOA : Nat
  IODIRA : Nat
  IODIRB : Nat
  GPPUB : Nat
  INPUT_PORT : Nat
  OUTPUT_PORT : Nat
  MAXPATH : Nat

/-- The write and the read opcode are different bytes. -/
def Consts.opcodesDistinct (c : Consts) : Prop :=
  toChar c.SPI_WRITE_CMD ≠ toChar c.SPI_READ_CMD

instance (c : Consts) : Decidable c.opcodesDistinct := by
  unfold Consts.opcodesDistinct; infer_instance

/-- Modelled from the spec: the part of the register map of `pfio.h` that
`pfio_init` relies on. The output port is the data register of port A, and the
direction and pull-up registers written after it are registers of their own. -/
def Consts.portMap (c : Consts) : Prop :=
  toChar c.OUTPUT_PORT = toChar c.GPIOA ∧
  toChar c.IODIRA ≠ toChar c.GPIOA ∧
  toChar c.IODIRB ≠ toChar c.GPIOA ∧
  toChar c.GPPUB ≠ toChar c.GPIOA

instance (c : Consts) : Decidable c.portMap := by
  unfold Consts.portMap; infer_instance

/-- One instance of the constants: the MCP23S17 register map with
`IOCON.BANK = 0`, opcodes `0x40`/`0x41`, port A as output and port B as input. -/
def mcp23s17 : Consts where
  SPI_WRITE_CMD := 0x40
  SPI_READ_CMD := 0x41
  IOCON := 0x0A
  GPIOA := 0x12
  IODIRA := 0x00
  IODIRB := 0x01
  GPPUB := 0x0D
  INPUT_PORT := 0x13
  OUTPUT_PORT := 0x12
  MAXPATH := 16

/-! ## Bus transport over a simulated register file -/

/-- The 3-byte buffer of one transaction (`TRANSFER_LEN` bytes). -/
structure Frame where
  cmd : Nat
  addr : Nat
  data : Nat
deriving DecidableEq, Repr

/-- The device behind `spi->fd`, simulated.
* `regs`: the register file of the chip, by register address;
* `log`: the request frames handed to the transfer `ioctl` so far, oldest first;
* `fails n`: whether the transfer number `n` (counted from 0) fails, that is,
  whether its `ioctl` returns less than 1;
* `junk n`: what the uninitialised `rxbuffer` of transfer `n` holds when that
  transfer fails and nothing is received;
* `errors`: how many times `spi_transfer` has printed its diagnostic. -/
structure Bus where
  regs : Nat → Nat
  log : List Frame
  fails : Nat → Bool
  junk : Nat → Frame
  errors : Nat

/-- The reaction of the chip to a request frame that reaches it: a write stores
the data byte in the addressed register, a read replies with the byte of the
addressed register in the third position. Returns the reply and the new register
file. -/
def chipExchange (c : Consts) (regs : Nat → Nat) (tx : Frame) : Frame × (Nat → Nat) :=
  if tx.cmd = toChar c.SPI_WRITE_CMD then
    (⟨0, 0, 0⟩, fun a => if a = tx.addr then tx.data else regs a)
  else if tx.cmd = toChar c.SPI_READ_CMD then
    (⟨0, 0, regs tx.addr % 256⟩, regs)
  else
    (⟨0, 0, 0⟩, regs)

/-- Source `spi_transfer`: hands the frame to the transfer `ioctl`; when that
fails it prints a diagnostic and returns normally (the function is `void`).
Returns the contents of `rxbuffer` and the new bus. -/
def spi_transfer (c : Consts) (b : Bus) (txbuffer : Frame) : Frame × Bus :=
  let n := b.log.length
  if b.fails n then
    (b.junk n, { b with log := b.log ++ [txbuffer], errors := b.errors + 1 })
  else
    let r := chipExchange c b.regs txbuffer
    (r.1, { b with log := b.log ++ [txbuffer], regs := r.2 })

/-- Source `spi_write`: frame `{SPI_WRITE_CMD, port, value}`, reply discarded. -/
def spi_write (c : Consts) (b : Bus) (port value : Nat) : Bus :=
  (spi_transfer c b ⟨toChar c.SPI_WRITE_CMD, toChar port, toChar value⟩).2

/-- Source `spi_read`: frame `{SPI_READ_CMD, port, 0xff}`, returns `rxbuffer[2]`. -/
def spi_read (c : Consts) (b : Bus) (port : Nat) : Nat × Bus :=
  let r := spi_transfer c b ⟨toChar c.SPI_READ_CMD, toChar port, toChar 0xff⟩
  (r.1.data, r.2)

/-! ## Port registers and pins -/

/-- Source `pfio_read_input`: `return spi_read(INPUT_PORT) ^ 0xFF;`. -/
def pfio_read_input (c : Consts) (signedChar : Bool) (b : Bus) : Nat × Bus :=
  let r := spi_read c b c.INPUT_PORT
  (toChar (promote signedChar r.1 ^^^ 0xFF), r.2)

/-- Source `pfio_read_output`: `return spi_read(OUTPUT_PORT);`. -/
def pfio_read_output (c : Consts) (b : Bus) : Nat × Bus :=
  spi_read c b c.OUTPUT_PORT

/-- Source `pfio_write_output`: `spi_write(OUTPUT_PORT, value);`. -/
def pfio_write_output (c : Consts) (b : Bus) (value : Nat) : Bus :=
  spi_write c b c.OUTPUT_PORT value

/-- Source `pfio_digital_read`: reads the input, computes the mask and returns
`(current_pin_values & pin_bit_mask) == pin_bit_mask` as a `char` (1 or 0). -/
def pfio_digital_read (c : Consts) (signedChar : Bool) (b : Bus) (pin_number : Nat) : Nat × Bus :=
  let r := pfio_read_input c signedChar b
  let current_pin_values := r.1
  let pin_bit_mask := pfio_get_pin_bit_mask pin_number
  (if promote signedChar current_pin_values &&& promote signedChar pin_bit_mask
        = promote signedChar pin_bit_mask then 1 else 0, r.2)

/-- The byte `pfio_digital_write` computes from the byte it read: the `if
(value > 0)` with its two branches. -/
def newPinValues (signedChar : Bool) (old_pin_values pin_bit_mask value : Nat) : Nat :=
  if 0 < intVal (promote signedChar value) then
    toChar (promote signedChar old_pin_values ||| promote signedChar pin_bit_mask)
  else
    toChar (promote signedChar old_pin_values &&& intNot (promote signedChar pin_bit_mask))

/-- Source `pfio_digital_write`: mask, read of the output register, set or
clear, write of the whole register. -/
def pfio_digital_write (c : Consts) (signedChar : Bool) (b : Bus) (pin_number value : Nat) : Bus :=
  let pin_bit_mask := pfio_get_pin_bit_mask pin_number
  let r := pfio_read_output c b
  let old_pin_values := r.1
  let new_pin_values := newPinValues signedChar old_pin_values pin_bit_mask value
  pfio_write_output c r.2 new_pin_values

/-! ## Session initialisation -/

/-- The session record `Spi`; a field is `none` until it is assigned. -/
structure Spi where
  fd : Option Int
  mode : Option Nat
  bitsperword : Option Nat
  maxspeed : Option Int
deriving DecidableEq, Repr

/-- What the calls `pfio_init` makes before the first transfer return.
* `malloc_ok`: `malloc` returned a non-null pointer;
* `snprintf_ret`: the length `snprintf` reports for the device path;
* `open_ret`: the descriptor `open` returns (negative on failure);
* `rd_mode`, `rd_bits`, `rd_max_speed`: the value each of the three
  configuration queries stores, or `none` when its `ioctl` returns a negative
  number. -/
structure Env where
  malloc_ok : Bool
  snprintf_ret : Nat
  open_ret : Int
  rd_mode : Option Nat
  rd_bits : Option Nat
  rd_max_speed : Option Int

/-- The `char` that `return -1;` yields: the low byte of the `int` -1. -/
def failureCode : Nat := toChar 0xFFFFFFFF

/-- The outcome of `pfio_init`: the returned `char`, the global `spi` (`none`
for a null pointer) and the bus. -/
structure InitResult where
  ret : Nat
  spi : Option Spi
  bus : Bus

/-- The five configuration writes of `pfio_init`, in source order. -/
def configWrites (c : Consts) (b : Bus) : Bus :=
  let b1 := spi_write c b c.IOCON 8
  let b2 := spi_write c b1 c.GPIOA 0x00
  let b3 := spi_write c b2 c.IODIRA 0
  let b4 := spi_write c b3 c.IODIRB 0xFF
  spi_write c b4 c.GPPUB 0xFF

/-- The loop `for (i = 1; i <= 8; i++) pfio_digital_write(i, 0);`: the index
runs through 1, 2, ..., 8 and is passed as a `char`. -/
def clearLoop (c : Consts) (signedChar : Bool) (b : Bus) : Bus :=
  [1, 2, 3, 4, 5, 6, 7, 8].foldl (fun acc i => pfio_digital_write c signedChar acc (toChar i) 0) b

/-- Source `pfio_init`. -/
def pfio_init (c : Consts) (signedChar : Bool) (env : Env) (b : Bus) : InitResult :=
  if env.malloc_ok = false then
    ⟨failureCode, none, b⟩
  else if c.MAXPATH ≤ env.snprintf_ret then
    ⟨failureCode, some ⟨none, none, none, none⟩, b⟩
  else if env.open_ret < 0 then
    ⟨failureCode, some ⟨some env.open_ret, none, none, none⟩, b⟩
  else
    match env.rd_mode with
    | none => ⟨failureCode, some ⟨some env.open_ret, none, none, none⟩, b⟩
    | some mode =>
      match env.rd_bits with
      | none => ⟨failureCode, some ⟨some env.open_ret, some mode, none, none⟩, b⟩
      | some bits =>
        match env.rd_max_speed with
        | none => ⟨failureCode, some ⟨some env.open_ret, some mode, some bits, none⟩, b⟩
        | some maxspeed =>
          ⟨0, some ⟨some env.open_ret, some mode, some bits, some maxspeed⟩,
            clearLoop c signedChar (configWrites c b)⟩


/-! ## Concrete chips and environments -/

/-- A simulated chip with the `mcp23s17` register map whose output port register
holds `out` and whose raw input port register holds `raw`; nothing has been
sent yet and every transfer succeeds. -/
def idleBus (out raw : Nat) : Bus where
  regs := fun a => if a = 0x12 then out else if a = 0x13 then raw else 0
  log := []
  fails := fun _ => false
  junk := fun _ => ⟨0, 0, 0⟩
  errors := 0

/-- The same chip behind a bus on which every transfer fails; the untouched
receive buffer holds zeros. -/
def deadBus (out raw : Nat) : Bus where
  regs := fun a => if a = 0x12 then out else if a = 0x13 then raw else 0
  log := []
  fails := fun _ => true
  junk := fun _ => ⟨0, 0, 0⟩
  errors := 0

/-- The same chip behind a bus on which exactly the transfer number `k` fails. -/
def flakyBus (k out raw : Nat) : Bus where
  regs := fun a => if a = 0x12 then out else if a = 0x13 then raw else 0
  log := []
  fails := fun n => decide (n = k)
  junk := fun _ => ⟨0, 0, 0⟩
  errors := 0

/-- An environment in which allocation, path formatting, open and the three
configuration queries all succeed. -/
def goodEnv : Env where
  malloc_ok := true
  snprintf_ret := 15
  open_ret := 3
  rd_mode := some 0
  rd_bits := some 8
  rd_max_speed := some 500000

/-- Allocation, path formatting, open and the three queries succeed. -/
def Env.ok (c : Consts) (env : Env) : Prop :=
  env.malloc_ok = true ∧ env.snprintf_ret < c.MAXPATH ∧ 0 ≤ env.open_ret ∧
  env.rd_mode ≠ none ∧ env.rd_bits ≠ none ∧ env.rd_max_speed ≠ none

instance (c : Consts) (env : Env) : Decidable (env.ok c) := by
  unfold Env.ok; infer_instance

/-- The frames of the five configuration writes, in source order. -/
def configFrames (c : Consts) : List Frame :=
  [⟨toChar c.SPI_WRITE_CMD, toChar c.IOCON, 8⟩,
   ⟨toChar c.SPI_WRITE_CMD, toChar c.GPIOA, 0x00⟩,
   ⟨toChar c.SPI_WRITE_CMD, toChar c.IODIRA, 0x00⟩,
   ⟨toChar c.SPI_WRITE_CMD, toChar c.IODIRB, 0xFF⟩,
   ⟨toChar c.SPI_WRITE_CMD, toChar c.GPPUB, 0xFF⟩]

/-- The frame list `fs` repeated `n` times. -/
def repeatFrames : Nat → List Frame → List Frame
  | 0, _ => []
  | n + 1, fs => fs ++ repeatFrames n fs

/-- The two frames of one `pfio_digital_write` that reads `0x00` and writes
`0x00`: a read of the output port, then a write of `0x00` to it. -/
def clearFrames (c : Consts) : List Frame :=
  [⟨toChar c.SPI_READ_CMD, toChar c.OUTPUT_PORT, 0xFF⟩,
   ⟨toChar c.SPI_WRITE_CMD, toChar c.OUTPUT_PORT, 0x00⟩]

/-! ## Byte-level facts -/

set_option maxRecDepth 100000 in
theorem setBit_byte : ∀ s : Bool, ∀ v < 256, ∀ p < 8,
    toChar (promote s v ||| promote s (pfio_get_pin_bit_mask p)) = v ||| 2 ^ p := by
  decide

set_option maxRecDepth 100000 in
theorem clearBit_byte : ∀ s : Bool, ∀ v < 256, ∀ p < 8,
    toChar (promote s v &&& intNot (promote s (pfio_get_pin_bit_mask p))) = v &&& (255 - 2 ^ p) := by
  decide

set_option maxRecDepth 100000 in
theorem maskTest_byte : ∀ s : Bool, ∀ v < 256, ∀ p < 8,
    (promote s v &&& promote s (pfio_get_pin_bit_mask p) = promote s (pfio_get_pin_bit_mask p))
      ↔ v.testBit p = true := by
  decide

set_option maxRecDepth 100000 in
theorem positive_byte : ∀ s : Bool, ∀ x < 256,
    0 < intVal (promote s x) ↔ (x ≠ 0 ∧ (s = true → x < 128)) := by
  decide

set_option maxRecDepth 100000 in
theorem complement_byte : ∀ s : Bool, ∀ r < 256,
    toChar (promote s r ^^^ 0xFF) = r ^^^ 0xFF ∧ r ^^^ 0xFF = 255 - r := by
  decide

theorem clearMask_testBit : ∀ p < 8, ∀ q < 8, q ≠ p → (255 - 2 ^ p).testBit q = true := by
  decide

theorem clearMask_testBit_self : ∀ p < 8, (255 - 2 ^ p).testBit p = false := by
  decide

theorem mask_eq_two_pow : ∀ p < 8, pfio_get_pin_bit_mask p = 2 ^ p ∧ pfio_get_pin_bit_mask p < 256 := by
  decide

/-! ## The loop of `pfio_get_pin_number` -/

theorem pinNumberLoop_fuel_succ (s : Bool) (fuel : Nat) :
    ∀ bp pn r, pinNumberLoop s fuel bp pn = some r → pinNumberLoop s (fuel + 1) bp pn = some r := by
  induction fuel with
  | zero => intro bp pn r h; simp [pinNumberLoop] at h
  | succ n ih =>
    intro bp pn r h
    rw [pinNumberLoop] at h
    rw [pinNumberLoop]
    by_cases h1 : promote s bp &&& 1 = 0
    · simp only [h1, if_true] at h ⊢
      by_cases h2 : 7 < intVal (promote s (toChar (pn + 1)))
      · simp only [h2, if_true] at h ⊢
        exact h
      · simp only [h2, if_false] at h ⊢
        exact ih _ _ _ h
    · simp only [h1, if_false] at h ⊢
      exact h

theorem pinNumberLoop_fuel_add (s : Bool) (fuel k bp pn r : Nat)
    (h : pinNumberLoop s fuel bp pn = some r) : pinNumberLoop s (fuel + k) bp pn = some r := by
  induction k with
  | zero => exact h
  | succ k ih => exact pinNumberLoop_fuel_succ s (fuel + k) bp pn r ih

theorem pfio_get_pin_number_fuel (s : Bool) (fuel m r : Nat) (hf : 8 ≤ fuel)
    (h : pfio_get_pin_number s 8 m = some r) : pfio_get_pin_number s fuel m = some r := by
  obtain ⟨k, rfl⟩ := Nat.exists_eq_add_of_le hf
  exact pinNumberLoop_fuel_add s 8 k m 0 r h

set_option maxRecDepth 100000 in
theorem pin_number_eight : ∀ s : Bool, ∀ m < 256, ∃ r < 8,
    pfio_get_pin_number s 8 m = some r ∧
    (m ≠ 0 → m.testBit r = true ∧ ∀ j < r, m.testBit j = false) ∧
    (m = 0 → r = 0) ∧ (m.testBit 0 = true → r = 0) := by
  decide

theorem roundtrip_eight : ∀ s : Bool, ∀ p < 8,
    pfio_get_pin_number s 8 (pfio_get_pin_bit_mask p) = some p := by
  decide

/-! ## Claims about pin addressing -/

/-- C1: for every pin index `p` in 0..7 the mask `pfio_get_pin_bit_mask p` is
the byte `2 ^ p` (0x80 for `p = 7`), and `pfio_get_pin_number` applied to that
byte ends, with any fuel of at least 8 iterations, and returns `p`; this holds
whether plain `char` is signed or not. -/
theorem pin_mask_roundtrip (signedChar : Bool) (fuel p : Nat) (hp : p < 8) (hf : 8 ≤ fuel) :
    pfio_get_pin_bit_mask p = 2 ^ p ∧ pfio_get_pin_bit_mask p < 256 ∧
    pfio_get_pin_number signedChar fuel (pfio_get_pin_bit_mask p) = some p :=
  ⟨(mask_eq_two_pow p hp).1, (mask_eq_two_pow p hp).2,
    pfio_get_pin_number_fuel signedChar fuel _ p hf (roundtrip_eight signedChar p hp)⟩

/-- Witness of C1 at pin 7, whose mask is 0x80, with signed `char`. -/
theorem pin_mask_roundtrip_witness :
    pfio_get_pin_bit_mask 7 = 2 ^ 7 ∧ pfio_get_pin_bit_mask 7 < 256 ∧
    pfio_get_pin_number true 8 (pfio_get_pin_bit_mask 7) = some 7 :=
  pin_mask_roundtrip true 8 7 (by decide) (by decide)

/-- C9: for every 8-bit mask `m`, `pfio_get_pin_number` ends within 8
iterations (any fuel of at least 8 gives a result `r`), `r` is in 0..7, for a
nonzero `m` it is the position of the lowest set bit of `m`, for `m = 0` it is
0, and it is 0 as well whenever bit 0 of `m` is set. -/
theorem pin_number_lowest_set_bit (signedChar : Bool) (fuel m : Nat) (hm : m < 256)
    (hf : 8 ≤ fuel) :
    ∃ r, pfio_get_pin_number signedChar fuel m = some r ∧ r < 8 ∧
      (m ≠ 0 → m.testBit r = true ∧ ∀ j < r, m.testBit j = false) ∧
      (m = 0 → r = 0) ∧ (m.testBit 0 = true → r = 0) := by
  obtain ⟨r, hr, h8, hrest⟩ := pin_number_eight signedChar m hm
  exact ⟨r, pfio_get_pin_number_fuel signedChar fuel m r hf h8, hr, hrest⟩

/-- Witness of C9 at the mask 0x80 with signed `char` and at the empty mask. -/
theorem pin_number_lowest_set_bit_witness :
    (∃ r, pfio_get_pin_number true 8 0x80 = some r ∧ r < 8 ∧
      (0x80 ≠ 0 → (0x80).testBit r = true ∧ ∀ j < r, (0x80).testBit j = false) ∧
      (0x80 = 0 → r = 0) ∧ ((0x80).testBit 0 = true → r = 0)) ∧
    pfio_get_pin_number true 8 0x80 = some 7 ∧ pfio_get_pin_number false 8 0 = some 0 :=
  ⟨pin_number_lowest_set_bit true 8 0x80 (by decide) (by decide), by decide, by decide⟩

/-! ## Transactions on the simulated register file -/

theorem spi_transfer_log (c : Consts) (b : Bus) (tx : Frame) :
    (spi_transfer c b tx).2.log = b.log ++ [tx] ∧
    (spi_transfer c b tx).2.fails = b.fails ∧ (spi_transfer c b tx).2.junk = b.junk := by
  unfold spi_transfer
  by_cases h : b.fails b.log.length = true <;> simp [h]

theorem spi_write_ok (c : Consts) (b : Bus) (port value : Nat)
    (h : b.fails b.log.length = false) :
    spi_write c b port value =
      { b with
        log := b.log ++ [⟨toChar c.SPI_WRITE_CMD, toChar port, toChar value⟩]
        regs := fun a => if a = toChar port then toChar value else b.regs a } := by
  simp [spi_write, spi_transfer, chipExchange, h]

theorem spi_read_ok (c : Consts) (b : Bus) (port : Nat) (hd : c.opcodesDistinct)
    (h : b.fails b.log.length = false) :
    spi_read c b port =
      (b.regs (toChar port) % 256,
        { b with log := b.log ++ [⟨toChar c.SPI_READ_CMD, toChar port, 0xFF⟩] }) := by
  have hd1 : ¬ toChar c.SPI_READ_CMD = toChar c.SPI_WRITE_CMD := fun e => hd e.symm
  have e : toChar 0xff = 0xFF := rfl
  simp [spi_read, spi_transfer, chipExchange, h, hd1, e]

theorem newPinValues_byte (s : Bool) (v p x : Nat) (hv : v < 256) (hp : p < 8) :
    newPinValues s v (pfio_get_pin_bit_mask p) x =
      if 0 < intVal (promote s x) then v ||| 2 ^ p else v &&& (255 - 2 ^ p) := by
  unfold newPinValues
  rw [setBit_byte s v hv p hp, clearBit_byte s v hv p hp]

theorem newPinValues_lt (s : Bool) (v m x : Nat) : newPinValues s v m x < 256 := by
  unfold newPinValues toChar
  split <;> exact Nat.mod_lt _ (by decide)

theorem newPinValues_zero (s : Bool) (m : Nat) : newPinValues s 0 m 0 = 0 := by
  simp [newPinValues, promote, intVal, toChar]

/-- What `pfio_digital_write` does when both of its transfers succeed: it logs a
read and a write of the output port and replaces the output port register. -/
theorem pfio_digital_write_ok (c : Consts) (s : Bool) (b : Bus) (p x : Nat)
    (hd : c.opcodesDistinct) (h : ∀ n, b.fails n = false) :
    pfio_digital_write c s b p x =
      { b with
        log := b.log ++ [⟨toChar c.SPI_READ_CMD, toChar c.OUTPUT_PORT, 0xFF⟩,
          ⟨toChar c.SPI_WRITE_CMD, toChar c.OUTPUT_PORT,
            newPinValues s (b.regs (toChar c.OUTPUT_PORT) % 256) (pfio_get_pin_bit_mask p) x⟩]
        regs := fun a => if a = toChar c.OUTPUT_PORT then
            newPinValues s (b.regs (toChar c.OUTPUT_PORT) % 256) (pfio_get_pin_bit_mask p) x
          else b.regs a } := by
  have hlt := newPinValues_lt s (b.regs (toChar c.OUTPUT_PORT) % 256) (pfio_get_pin_bit_mask p) x
  unfold pfio_digital_write pfio_write_output pfio_read_output
  rw [spi_read_ok c b _ hd (h _)]
  dsimp only
  rw [spi_write_ok]
  · have e : toChar (newPinValues s (b.regs (toChar c.OUTPUT_PORT) % 256)
        (pfio_get_pin_bit_mask p) x) = newPinValues s (b.regs (toChar c.OUTPUT_PORT) % 256)
        (pfio_get_pin_bit_mask p) x := Nat.mod_eq_of_lt hlt
    simp [e]
  · exact h _

theorem testBit_mod_256 (v q : Nat) (hq : q < 8) : (v % 256).testBit q = v.testBit q := by
  have h := Nat.testBit_mod_two_pow v 8 q
  simpa [hq] using h

/-- Bit `p` of the output port register after `pfio_digital_write p x`, when
both transfers succeed: set exactly when `value > 0` holds for the byte `x`. -/
theorem written_bit_iff (c : Consts) (signedChar : Bool) (b : Bus) (p x : Nat)
    (hd : c.opcodesDistinct) (h : ∀ n, b.fails n = false) (hp : p < 8) (hx : x < 256) :
    (((pfio_digital_write c signedChar b p x).regs (toChar c.OUTPUT_PORT)).testBit p = true ↔
      (x ≠ 0 ∧ (signedChar = true → x < 128))) ∧
    (((pfio_digital_write c signedChar b p x).regs (toChar c.OUTPUT_PORT)).testBit p = false ↔
      ¬ (x ≠ 0 ∧ (signedChar = true → x < 128))) := by
  rw [pfio_digital_write_ok c signedChar b p x hd h]
  simp only [if_true]
  rw [newPinValues_byte signedChar _ p x (Nat.mod_lt _ (by decide)) hp]
  have hpos := positive_byte signedChar x hx
  by_cases hc : 0 < intVal (promote signedChar x)
  · have hr := hpos.1 hc
    simp only [hc, if_true]
    have e : ((b.regs (toChar c.OUTPUT_PORT) % 256) ||| 2 ^ p).testBit p = true := by
      rw [Nat.testBit_or, Nat.testBit_two_pow]
      simp
    rw [e]
    exact ⟨⟨fun _ => hr, fun _ => rfl⟩, fun e => absurd e (by decide), fun e => absurd hr e⟩
  · have hr : ¬ (x ≠ 0 ∧ (signedChar = true → x < 128)) := fun e => hc (hpos.2 e)
    simp only [hc, if_false]
    rw [Nat.testBit_and, clearMask_testBit_self p hp, Bool.and_false]
    exact ⟨⟨fun e => absurd e (by decide), fun e => absurd e hr⟩, fun _ => hr, fun _ => rfl⟩

/-! ## Claims about digital write -/

/-- C2: on a simulated register file whose opcodes are distinct and on which
every transfer succeeds, for every prior output-register value, every pin `p`
in 0..7 and every value `x`, after `pfio_digital_write p x` each bit `q` in
0..7 other than `p` of the output port register has the value it had before. -/
theorem digital_write_frame (c : Consts) (signedChar : Bool) (b : Bus) (p q x : Nat)
    (hd : c.opcodesDistinct) (h : ∀ n, b.fails n = false)
    (hp : p < 8) (hq : q < 8) (hne : q ≠ p) :
    ((pfio_digital_write c signedChar b p x).regs (toChar c.OUTPUT_PORT)).testBit q =
      (b.regs (toChar c.OUTPUT_PORT)).testBit q := by
  rw [pfio_digital_write_ok c signedChar b p x hd h]
  simp only [if_true]
  rw [newPinValues_byte signedChar _ p x (Nat.mod_lt _ (by decide)) hp]
  split
  · rw [Nat.testBit_or, Nat.testBit_two_pow, testBit_mod_256 _ q hq]
    simp [Ne.symm hne]
  · rw [Nat.testBit_and, clearMask_testBit p hp q hq hne, testBit_mod_256 _ q hq]
    simp

/-- Witness of C2: writing pin 7 with the byte 0x80 under signed `char` on the
register value 0xFF leaves bit 0 as it was. -/
theorem digital_write_frame_witness :
    ((pfio_digital_write mcp23s17 true (idleBus 0xFF 0) 7 0x80).regs
        (toChar mcp23s17.OUTPUT_PORT)).testBit 0 =
      ((idleBus 0xFF 0).regs (toChar mcp23s17.OUTPUT_PORT)).testBit 0 :=
  digital_write_frame mcp23s17 true (idleBus 0xFF 0) 7 0 0x80 (by decide) (fun _ => rfl)
    (by decide) (by decide) (by decide)

/-- C3, counterexample: with signed plain `char` the nonzero byte 0x80 is the
value -128, `value > 0` is false, and `pfio_digital_write 0 0x80` clears bit 0
of an output register that held 0xFF, although 0x80 is nonzero. -/
theorem digital_write_negative_byte_clears :
    (0x80 : Nat) ≠ 0 ∧ charValue true 0x80 = -128 ∧
    (∀ n, (idleBus 0xFF 0).fails n = false) ∧
    ((pfio_digital_write mcp23s17 true (idleBus 0xFF 0) 0 0x80).regs 0x12).testBit 0 = false ∧
    (pfio_digital_write mcp23s17 true (idleBus 0xFF 0) 0 0x80).regs 0x12 = 0xFE :=
  ⟨by decide, by decide, fun _ => rfl, by decide, by decide⟩

/-- C3, amended: on a simulated register file whose opcodes are distinct and
on which every transfer succeeds, for every pin `p` in 0..7 and every byte `x`,
after `pfio_digital_write p x` bit `p` of the output port register is 1 exactly
when `x`, read as a `char`, is greater than 0: `x` is nonzero and, where plain
`char` is signed, below 0x80. Otherwise the bit is 0. -/
theorem digital_write_sets_iff_positive (c : Consts) (signedChar : Bool) (b : Bus) (p x : Nat)
    (hd : c.opcodesDistinct) (h : ∀ n, b.fails n = false) (hp : p < 8) (hx : x < 256) :
    (((pfio_digital_write c signedChar b p x).regs (toChar c.OUTPUT_PORT)).testBit p = true ↔
      (x ≠ 0 ∧ (signedChar = true → x < 128))) ∧
    (((pfio_digital_write c signedChar b p x).regs (toChar c.OUTPUT_PORT)).testBit p = false ↔
      ¬ (x ≠ 0 ∧ (signedChar = true → x < 128))) :=
  written_bit_iff c signedChar b p x hd h hp hx

/-- Witness of C3 as amended: with unsigned `char` the byte 0x80 sets pin 7. -/
theorem digital_write_sets_iff_positive_witness :
    ((pfio_digital_write mcp23s17 false (idleBus 0 0) 7 0x80).regs
        (toChar mcp23s17.OUTPUT_PORT)).testBit 7 = true :=
  ((digital_write_sets_iff_positive mcp23s17 false (idleBus 0 0) 7 0x80 (by decide)
    (fun _ => rfl) (by decide) (by decide)).1).2 ⟨by decide, fun e => absurd e (by decide)⟩

/-! ## Claims about the input port -/

theorem chipExchange_data_lt (c : Consts) (regs : Nat → Nat) (tx : Frame) :
    (chipExchange c regs tx).1.data < 256 := by
  unfold chipExchange
  split
  · exact Nat.zero_lt_succ _
  · split
    · exact Nat.mod_lt _ (by decide)
    · exact Nat.zero_lt_succ _

theorem xor_255_testBit (r p : Nat) (hp : p < 8) :
    (r ^^^ 0xFF).testBit p = !(r.testBit p) := by
  have h255 : ∀ p < 8, (0xFF : Nat).testBit p = true := by decide
  rw [Nat.testBit_xor, h255 p hp]
  cases r.testBit p <;> rfl

/-- What `pfio_digital_read` returns when its transfer succeeds: 1 when bit `p`
of the raw input port register is 0, and 0 when that bit is 1. -/
theorem pfio_digital_read_ok (c : Consts) (s : Bool) (b : Bus) (p : Nat)
    (hd : c.opcodesDistinct) (h : b.fails b.log.length = false) (hp : p < 8) :
    (pfio_digital_read c s b p).1 =
      if (b.regs (toChar c.INPUT_PORT)).testBit p = true then 0 else 1 := by
  unfold pfio_digital_read pfio_read_input
  rw [spi_read_ok c b _ hd h]
  dsimp only
  have hlt : b.regs (toChar c.INPUT_PORT) % 256 < 256 := Nat.mod_lt _ (by decide)
  rw [(complement_byte s _ hlt).1]
  have hlt2 : b.regs (toChar c.INPUT_PORT) % 256 ^^^ 0xFF < 256 := by
    rw [(complement_byte s _ hlt).2]; omega
  have ht := maskTest_byte s _ hlt2 p hp
  rw [xor_255_testBit _ p hp, testBit_mod_256 _ p hp] at ht
  by_cases hb : (b.regs (toChar c.INPUT_PORT)).testBit p = true
  · have hn : ¬ (promote s (b.regs (toChar c.INPUT_PORT) % 256 ^^^ 0xFF) &&&
        promote s (pfio_get_pin_bit_mask p) = promote s (pfio_get_pin_bit_mask p)) := by
      intro e
      have := ht.1 e
      simp [hb] at this
    simp only [hn, hb, if_true, if_false]
  · have hy : promote s (b.regs (toChar c.INPUT_PORT) % 256 ^^^ 0xFF) &&&
        promote s (pfio_get_pin_bit_mask p) = promote s (pfio_get_pin_bit_mask p) := by
      apply ht.2
      simp [hb]
    simp [hy, hb]

/-- C5: when the read transaction of `pfio_read_input` succeeds and its third
reply byte is `r`, then `r` is a byte, `pfio_read_input` returns `r XOR 0xFF`,
which is the 8-bit complement `255 - r`, the one frame it sends is
`{SPI_READ_CMD, INPUT_PORT, 0xFF}`, and with distinct opcodes `r` is the byte of
the input port register of the simulated chip. -/
theorem read_input_complement (c : Consts) (signedChar : Bool) (b : Bus) (r : Nat)
    (hok : b.fails b.log.length = false)
    (hr : (spi_transfer c b ⟨toChar c.SPI_READ_CMD, toChar c.INPUT_PORT, 0xFF⟩).1.data = r) :
    r < 256 ∧
    (pfio_read_input c signedChar b).1 = r ^^^ 0xFF ∧
    (pfio_read_input c signedChar b).1 = 255 - r ∧
    (pfio_read_input c signedChar b).2.log =
      b.log ++ [⟨toChar c.SPI_READ_CMD, toChar c.INPUT_PORT, 0xFF⟩] ∧
    (c.opcodesDistinct → r = b.regs (toChar c.INPUT_PORT) % 256) := by
  have e : toChar 0xff = 0xFF := rfl
  have hlt : r < 256 := by
    rw [← hr]
    simp only [spi_transfer, hok]
    exact chipExchange_data_lt c b.regs _
  have hval : (pfio_read_input c signedChar b).1 = r ^^^ 0xFF := by
    simp only [pfio_read_input, spi_read, e, hr]
    exact (complement_byte signedChar r hlt).1
  refine ⟨hlt, hval, ?_, ?_, ?_⟩
  · rw [hval]; exact (complement_byte signedChar r hlt).2
  · simp only [pfio_read_input, spi_read, e]
    exact (spi_transfer_log c b _).1
  · intro hd
    have h2 := spi_read_ok c b c.INPUT_PORT hd hok
    simp only [spi_read, e] at h2
    rw [← hr]
    exact congrArg Prod.fst h2

/-- Witness of C5: the raw input byte 0xA5 is returned as 0x5A. -/
theorem read_input_complement_witness :
    (0xA5 : Nat) < 256 ∧
    (pfio_read_input mcp23s17 true (idleBus 0 0xA5)).1 = 0xA5 ^^^ 0xFF ∧
    (pfio_read_input mcp23s17 true (idleBus 0 0xA5)).1 = 255 - 0xA5 ∧
    (pfio_read_input mcp23s17 true (idleBus 0 0xA5)).2.log =
      (idleBus 0 0xA5).log ++
        [⟨toChar mcp23s17.SPI_READ_CMD, toChar mcp23s17.INPUT_PORT, 0xFF⟩] ∧
    (mcp23s17.opcodesDistinct →
      0xA5 = (idleBus 0 0xA5).regs (toChar mcp23s17.INPUT_PORT) % 256) :=
  read_input_complement mcp23s17 true (idleBus 0 0xA5) 0xA5 rfl (by decide)

/-- C4, counterexample: on a chip whose raw input register is 0xFF (all inputs
inactive), `pfio_digital_read 0` returns 0 right after `pfio_digital_write 0 1`,
and on a chip whose raw input register is 0x00 it returns 1 after
`pfio_digital_write 0 1` followed by `pfio_digital_write 0 0`; every transfer
succeeds, and this is so with signed and with unsigned `char`. -/
theorem digital_read_ignores_written_pin :
    (∀ n, (idleBus 0 0xFF).fails n = false) ∧
    (pfio_digital_read mcp23s17 true
      (pfio_digital_write mcp23s17 true (idleBus 0 0xFF) 0 1) 0).1 = 0 ∧
    (pfio_digital_read mcp23s17 false
      (pfio_digital_write mcp23s17 false (idleBus 0 0xFF) 0 1) 0).1 = 0 ∧
    (pfio_digital_read mcp23s17 true
      (pfio_digital_write mcp23s17 true
        (pfio_digital_write mcp23s17 true (idleBus 0 0x00) 0 1) 0 0) 0).1 = 1 ∧
    (pfio_digital_read mcp23s17 false
      (pfio_digital_write mcp23s17 false
        (pfio_digital_write mcp23s17 false (idleBus 0 0x00) 0 1) 0 0) 0).1 = 1 :=
  ⟨fun _ => rfl, by decide, by decide, by decide, by decide⟩

/-- C4, amended: on a simulated register file with distinct opcodes, an input
port that is not the output port and every transfer succeeding, for every pin
`p` in 0..7 `pfio_digital_read p` returns 1 exactly when bit `p` of the raw
input port register is 0, and it returns that same value after
`pfio_digital_write p 1` and after a following `pfio_digital_write p 0`: the
writes change the output port register only. The written pin reads back through
`pfio_read_output`: its bit `p` is 1 after the first write and 0 after the
second. -/
theorem digital_read_after_write (c : Consts) (signedChar : Bool) (b : Bus) (p : Nat)
    (hd : c.opcodesDistinct) (hio : toChar c.INPUT_PORT ≠ toChar c.OUTPUT_PORT)
    (h : ∀ n, b.fails n = false) (hp : p < 8) :
    (pfio_digital_read c signedChar (pfio_digital_write c signedChar b p 1) p).1 =
      (if (b.regs (toChar c.INPUT_PORT)).testBit p = true then 0 else 1) ∧
    (pfio_digital_read c signedChar
      (pfio_digital_write c signedChar (pfio_digital_write c signedChar b p 1) p 0) p).1 =
      (if (b.regs (toChar c.INPUT_PORT)).testBit p = true then 0 else 1) ∧
    (pfio_digital_read c signedChar b p).1 =
      (if (b.regs (toChar c.INPUT_PORT)).testBit p = true then 0 else 1) ∧
    (pfio_read_output c (pfio_digital_write c signedChar b p 1)).1.testBit p = true ∧
    (pfio_read_output c
      (pfio_digital_write c signedChar (pfio_digital_write c signedChar b p 1) p 0)).1.testBit p
      = false := by
  have h1 : ∀ n, (pfio_digital_write c signedChar b p 1).fails n = false := by
    rw [pfio_digital_write_ok c signedChar b p 1 hd h]; exact h
  have h2 : ∀ n, (pfio_digital_write c signedChar
      (pfio_digital_write c signedChar b p 1) p 0).fails n = false := by
    rw [pfio_digital_write_ok c signedChar _ p 0 hd h1]; exact h1
  have r1 : (pfio_digital_write c signedChar b p 1).regs (toChar c.INPUT_PORT) =
      b.regs (toChar c.INPUT_PORT) := by
    rw [pfio_digital_write_ok c signedChar b p 1 hd h]
    simp only [hio, if_false]
  have r2 : (pfio_digital_write c signedChar (pfio_digital_write c signedChar b p 1) p 0).regs
      (toChar c.INPUT_PORT) = b.regs (toChar c.INPUT_PORT) := by
    rw [pfio_digital_write_ok c signedChar _ p 0 hd h1]
    simp only [hio, if_false]
    exact r1
  have s1 := (written_bit_iff c signedChar b p 1 hd h hp (by decide)).1
  have s2 := (written_bit_iff c signedChar
    (pfio_digital_write c signedChar b p 1) p 0 hd h1 hp (by decide)).2
  refine ⟨?_, ?_, ?_, ?_, ?_⟩
  · rw [pfio_digital_read_ok c signedChar _ p hd (h1 _) hp, r1]
  · rw [pfio_digital_read_ok c signedChar _ p hd (h2 _) hp, r2]
  · exact pfio_digital_read_ok c signedChar b p hd (h _) hp
  · unfold pfio_read_output
    rw [spi_read_ok c _ _ hd (h1 _)]
    dsimp only
    rw [testBit_mod_256 _ p hp]
    exact s1.2 ⟨by decide, fun _ => by decide⟩
  · unfold pfio_read_output
    rw [spi_read_ok c _ _ hd (h2 _)]
    dsimp only
    rw [testBit_mod_256 _ p hp]
    exact s2.2 (fun e => e.1 rfl)

/-- Witness of C4 as amended: pin 0 on a chip whose raw input register is
0xFF. -/
theorem digital_read_after_write_witness :
    (pfio_digital_read mcp23s17 true (pfio_digital_write mcp23s17 true (idleBus 0 0xFF) 0 1) 0).1
      = 0 ∧
    (pfio_read_output mcp23s17 (pfio_digital_write mcp23s17 true (idleBus 0 0xFF) 0 1)).1.testBit 0
      = true := by
  have w := digital_read_after_write mcp23s17 true (idleBus 0 0xFF) 0 (by decide) (by decide)
    (fun _ => rfl) (by decide)
  exact ⟨w.1.trans (by decide), w.2.2.2.1⟩

/-! ## Initialisation -/

theorem configWrites_log (c : Consts) (b : Bus) :
    (configWrites c b).log = b.log ++ configFrames c ∧ (configWrites c b).fails = b.fails := by
  have e8 : toChar 8 = 8 := rfl
  have e0 : toChar 0 = 0 := rfl
  have eF : toChar 0xFF = 0xFF := rfl
  simp only [configWrites, spi_write, configFrames, spi_transfer_log, e8, e0, eF,
    List.append_assoc, List.singleton_append, List.cons_append, List.nil_append, and_self]

theorem configWrites_output_zero (c : Consts) (b : Bus) (hm : c.portMap)
    (h : ∀ n, b.fails n = false) :
    (configWrites c b).regs (toChar c.OUTPUT_PORT) = 0 := by
  obtain ⟨ho, ha, hb, hp⟩ := hm
  have e0 : toChar 0 = 0 := rfl
  simp [configWrites, spi_write, spi_transfer, chipExchange, h, ho, e0, Ne.symm ha, Ne.symm hb,
    Ne.symm hp]

theorem pfio_digital_write_log (c : Consts) (s : Bool) (b : Bus) (p x : Nat) :
    (∃ rest, rest.length = 2 ∧ (pfio_digital_write c s b p x).log = b.log ++ rest) ∧
    (pfio_digital_write c s b p x).fails = b.fails := by
  simp only [pfio_digital_write, pfio_write_output, pfio_read_output, spi_write, spi_read,
    spi_transfer_log, List.append_assoc, and_true]
  exact ⟨[_, _], rfl, rfl⟩

theorem foldl_digital_write_log (c : Consts) (s : Bool) (x : Nat) (l : List Nat) :
    ∀ b : Bus, ∃ rest, rest.length = 2 * l.length ∧
      (l.foldl (fun acc i => pfio_digital_write c s acc (toChar i) x) b).log = b.log ++ rest := by
  induction l with
  | nil => intro b; exact ⟨[], rfl, by simp⟩
  | cons i l ih =>
    intro b
    obtain ⟨r1, hr1, hl1⟩ := (pfio_digital_write_log c s b (toChar i) x).1
    obtain ⟨r2, hr2, hl2⟩ := ih (pfio_digital_write c s b (toChar i) x)
    refine ⟨r1 ++ r2, ?_, ?_⟩
    · simp only [List.length_append, List.length_cons, hr1, hr2]; omega
    · simp only [List.foldl_cons, hl2, hl1, List.append_assoc]

theorem foldl_clear_from_zero (c : Consts) (s : Bool) (hd : c.opcodesDistinct) (l : List Nat) :
    ∀ b : Bus, (∀ n, b.fails n = false) → b.regs (toChar c.OUTPUT_PORT) = 0 →
      (l.foldl (fun acc i => pfio_digital_write c s acc (toChar i) 0) b).regs
          (toChar c.OUTPUT_PORT) = 0 ∧
      (l.foldl (fun acc i => pfio_digital_write c s acc (toChar i) 0) b).log =
          b.log ++ repeatFrames l.length (clearFrames c) := by
  induction l with
  | nil => intro b _ hz; exact ⟨hz, by simp [repeatFrames]⟩
  | cons i l ih =>
    intro b h hz
    have hw := pfio_digital_write_ok c s b (toChar i) 0 hd h
    rw [hz] at hw
    simp only [Nat.zero_mod, newPinValues_zero] at hw
    have h1 : ∀ n, (pfio_digital_write c s b (toChar i) 0).fails n = false := by
      rw [hw]; exact h
    have hz1 : (pfio_digital_write c s b (toChar i) 0).regs (toChar c.OUTPUT_PORT) = 0 := by
      rw [hw]; simp
    obtain ⟨hr, hl⟩ := ih _ h1 hz1
    refine ⟨hr, ?_⟩
    simp only [List.foldl_cons] at hl ⊢
    rw [hl, hw]
    simp [repeatFrames, clearFrames]

theorem pfio_init_ok (c : Consts) (s : Bool) (env : Env) (b : Bus) (he : env.ok c) :
    (pfio_init c s env b).ret = 0 ∧
    (pfio_init c s env b).bus = clearLoop c s (configWrites c b) := by
  obtain ⟨h1, h2, h3, h4, h5, h6⟩ := he
  unfold pfio_init
  cases hm : env.rd_mode with
  | none => exact absurd hm h4
  | some m =>
    cases hb : env.rd_bits with
    | none => exact absurd hb h5
    | some bw =>
      cases hs : env.rd_max_speed with
      | none => exact absurd hs h6
      | some sp => simp [h1, Nat.not_le.mpr h2, Int.not_lt.mpr h3]

theorem pfio_init_fail (c : Consts) (s : Bool) (env : Env) (b : Bus) (he : ¬ env.ok c) :
    (pfio_init c s env b).ret = failureCode ∧ (pfio_init c s env b).bus = b := by
  unfold pfio_init
  by_cases h1 : env.malloc_ok = false
  · simp [h1]
  · by_cases h2 : c.MAXPATH ≤ env.snprintf_ret
    · simp [h1, h2]
    · by_cases h3 : env.open_ret < 0
      · simp [h1, h2, h3]
      · cases hm : env.rd_mode with
        | none => simp [h1, h2, h3]
        | some m =>
          cases hb : env.rd_bits with
          | none => simp [h1, h2, h3]
          | some bw =>
            cases hs : env.rd_max_speed with
            | none => simp [h1, h2, h3]
            | some sp =>
              exfalso
              apply he
              refine ⟨by simpa using h1, Nat.not_le.mp h2, Int.not_lt.mp h3, ?_, ?_, ?_⟩ <;> simp [hm, hb, hs]

/-! ## Claims about `pfio_init` -/

/-- C7: for every prior state of the simulated chip, with distinct opcodes and
the register map of the spec (output port = the data register of port A), when
allocation, path formatting, open, the three queries and every transfer succeed,
`pfio_init` returns 0, the output port register is 0x00 afterwards (each of its
bits is 0), and the transactions it issued are the writes IOCON=8, GPIOA=0x00,
IODIRA=0x00, IODIRB=0xFF, GPPUB=0xFF in that order, followed by the 8 read/write
pairs of the clearing loop. -/
theorem init_startup_state (c : Consts) (signedChar : Bool) (env : Env) (b : Bus)
    (hd : c.opcodesDistinct) (hm : c.portMap) (he : env.ok c) (h : ∀ n, b.fails n = false) :
    (pfio_init c signedChar env b).ret = 0 ∧
    (pfio_init c signedChar env b).bus.regs (toChar c.OUTPUT_PORT) = 0x00 ∧
    (∀ q, ((pfio_init c signedChar env b).bus.regs (toChar c.OUTPUT_PORT)).testBit q = false) ∧
    (pfio_init c signedChar env b).bus.log =
      b.log ++ configFrames c ++ repeatFrames 8 (clearFrames c) := by
  obtain ⟨hret, hbus⟩ := pfio_init_ok c signedChar env b he
  have hf : ∀ n, (configWrites c b).fails n = false := by
    rw [(configWrites_log c b).2]; exact h
  have hz := configWrites_output_zero c b hm h
  obtain ⟨hr, hl⟩ := foldl_clear_from_zero c signedChar hd [1, 2, 3, 4, 5, 6, 7, 8] (configWrites c b) hf hz
  have hreg : (pfio_init c signedChar env b).bus.regs (toChar c.OUTPUT_PORT) = 0 := by
    rw [hbus]; exact hr
  refine ⟨hret, hreg, ?_, ?_⟩
  · intro q
    rw [hreg]
    exact Nat.zero_testBit q
  · rw [hbus]
    unfold clearLoop
    rw [hl, (configWrites_log c b).1]
    rfl

/-- Witness of C7: the `mcp23s17` map, a chip whose output register held 0xFF. -/
theorem init_startup_state_witness :
    (pfio_init mcp23s17 true goodEnv (idleBus 0xFF 0)).ret = 0 ∧
    (pfio_init mcp23s17 true goodEnv (idleBus 0xFF 0)).bus.regs (toChar mcp23s17.OUTPUT_PORT)
      = 0x00 ∧
    (∀ q, ((pfio_init mcp23s17 true goodEnv (idleBus 0xFF 0)).bus.regs
      (toChar mcp23s17.OUTPUT_PORT)).testBit q = false) ∧
    (pfio_init mcp23s17 true goodEnv (idleBus 0xFF 0)).bus.log =
      (idleBus 0xFF 0).log ++ configFrames mcp23s17 ++ repeatFrames 8 (clearFrames mcp23s17) :=
  init_startup_state mcp23s17 true goodEnv (idleBus 0xFF 0) (by decide) (by decide) (by decide)
    (fun _ => rfl)

/-- C6, counterexample: with allocation, path formatting, open and the three
queries succeeding, `pfio_init` returns 0 on a bus on which every transfer
fails, after attempting all 21 transactions and printing 21 diagnostics, and
the output register still holds 0xFF; it also returns 0 and goes on to all 21
transactions when only the first transfer fails. -/
theorem init_returns_zero_on_dead_bus :
    goodEnv.ok mcp23s17 ∧ (∀ n, (deadBus 0xFF 0).fails n = true) ∧
    (pfio_init mcp23s17 true goodEnv (deadBus 0xFF 0)).ret = 0 ∧
    (pfio_init mcp23s17 true goodEnv (deadBus 0xFF 0)).bus.log.length = 21 ∧
    (pfio_init mcp23s17 true goodEnv (deadBus 0xFF 0)).bus.errors = 21 ∧
    (pfio_init mcp23s17 true goodEnv (deadBus 0xFF 0)).bus.regs 0x12 = 0xFF ∧
    (flakyBus 0 0xFF 0).fails 0 = true ∧
    (pfio_init mcp23s17 true goodEnv (flakyBus 0 0xFF 0)).ret = 0 ∧
    (pfio_init mcp23s17 true goodEnv (flakyBus 0 0xFF 0)).bus.log.length = 21 :=
  ⟨by decide, fun _ => rfl, by decide, by decide, by decide, by decide, by decide, by decide,
    by decide⟩

/-- C6, amended: `pfio_init` does not report transfer failures. Whatever
transfers fail, it returns 0 exactly when allocation, path formatting, open and
the three configuration queries succeed, and then it has issued the five
configuration writes followed by the 16 transactions of the clearing loop; when
one of those first steps fails it returns the failure code and issues no
transaction. -/
theorem init_ignores_transfer_failures (c : Consts) (signedChar : Bool) (env : Env) (b : Bus) :
    ((pfio_init c signedChar env b).ret = 0 ↔ env.ok c) ∧
    (env.ok c → ∃ rest, rest.length = 16 ∧
      (pfio_init c signedChar env b).bus.log = b.log ++ configFrames c ++ rest) ∧
    (¬ env.ok c → (pfio_init c signedChar env b).ret = failureCode ∧
      (pfio_init c signedChar env b).bus = b) := by
  refine ⟨⟨?_, fun he => (pfio_init_ok c signedChar env b he).1⟩, ?_,
    pfio_init_fail c signedChar env b⟩
  · intro hz
    by_contra he
    have hf := (pfio_init_fail c signedChar env b he).1
    rw [hz] at hf
    exact absurd hf (by decide)
  · intro he
    obtain ⟨rest, hlen, hlog⟩ :=
      foldl_digital_write_log c signedChar 0 [1, 2, 3, 4, 5, 6, 7, 8] (configWrites c b)
    refine ⟨rest, by simpa using hlen, ?_⟩
    rw [(pfio_init_ok c signedChar env b he).2]
    unfold clearLoop
    rw [hlog, (configWrites_log c b).1]

/-- Witness of C6 as amended: a bus on which every transfer fails. -/
theorem init_ignores_transfer_failures_witness :
    (pfio_init mcp23s17 true goodEnv (deadBus 0xFF 0)).ret = 0 :=
  ((init_ignores_transfer_failures mcp23s17 true goodEnv (deadBus 0xFF 0)).1).2 (by decide)

/-- C8: when one of the three configuration queries fails (the third after the
first two succeeded, or the first, or the second), `pfio_init` returns the
failure code, the `char` of `return -1` (byte 0xFF, the value -1 of a signed
`char`), which is not 0, and the bus is left as it was: no frame is sent, no
register changes. -/
theorem init_query_failure_aborts (c : Consts) (signedChar : Bool) (env : Env) (b : Bus)
    (hq : env.rd_mode = none ∨ env.rd_bits = none ∨ env.rd_max_speed = none) :
    (pfio_init c signedChar env b).ret = failureCode ∧
    failureCode = 0xFF ∧ charValue true failureCode = -1 ∧
    (pfio_init c signedChar env b).ret ≠ 0 ∧
    (pfio_init c signedChar env b).bus = b ∧
    (pfio_init c signedChar env b).bus.log = b.log := by
  have he : ¬ env.ok c := by
    rintro ⟨_, _, _, h4, h5, h6⟩
    rcases hq with hq | hq | hq
    · exact h4 hq
    · exact h5 hq
    · exact h6 hq
  obtain ⟨hret, hbus⟩ := pfio_init_fail c signedChar env b he
  refine ⟨hret, by decide, by decide, ?_, hbus, by rw [hbus]⟩
  rw [hret]
  decide

/-- Witness of C8: the third query fails after the first two succeeded. -/
theorem init_query_failure_aborts_witness :
    (pfio_init mcp23s17 true { goodEnv with rd_max_speed := none } (idleBus 0xFF 0)).ret
      = failureCode ∧
    (pfio_init mcp23s17 true { goodEnv with rd_max_speed := none } (idleBus 0xFF 0)).bus.log
      = [] :=
  have w := init_query_failure_aborts mcp23s17 true { goodEnv with rd_max_speed := none }
    (idleBus 0xFF 0) (Or.inr (Or.inr rfl))
  ⟨w.1, w.2.2.2.2.2⟩

/-- C10, evaluation at the failing input: the clearing loop on its own, with
every transfer succeeding, leaves bit 0 of the output port register set. From
0x01 and from 0xFF it ends at 0x01, not 0x00, with signed and with unsigned
`char`: the loop passes the pins 1..8, the mask of pin 8 is the byte 0, and
pin 0 is never passed. Inside `pfio_init` the same shows when the write
GPIOA=0x00 (transfer number 1) fails: `pfio_init` returns 0 and the output
register still holds 0x01. -/
theorem clearLoop_keeps_bit_zero :
    (∀ n, (idleBus 0x01 0).fails n = false) ∧
    (clearLoop mcp23s17 true (idleBus 0x01 0)).regs 0x12 = 0x01 ∧
    (clearLoop mcp23s17 false (idleBus 0x01 0)).regs 0x12 = 0x01 ∧
    (clearLoop mcp23s17 true (idleBus 0xFF 0)).regs 0x12 = 0x01 ∧
    (clearLoop mcp23s17 false (idleBus 0xFF 0)).regs 0x12 = 0x01 ∧
    pfio_get_pin_bit_mask 8 = 0 ∧
    (pfio_init mcp23s17 true goodEnv (flakyBus 1 0x01 0)).ret = 0 ∧
    (pfio_init mcp23s17 true goodEnv (flakyBus 1 0x01 0)).bus.regs 0x12 = 0x01 :=
  ⟨fun _ => rfl, by decide, by decide, by decide, by decide, by decide, by decide, by decide⟩

end Pfio
